import Mathlib

set_option maxRecDepth 8000

/-!
Verification of the BioPsyKit wear-time detection and activity-counts core.

This file shallowly embeds the algorithmic core of the repository:

* `ActivityCounts` (biopsykit/signals/imu/activity_counts.py): the
  per-sample numeric stages (`_truncate`, `_digitize_8bit`,
  `_accumulate_minute_bins`) are embedded over `ℚ`, and the stage order
  of `ActivityCounts.calculate` is embedded as an explicit stage trace.
* `WearDetection` (src/biopsykit/signals/imu/wear_detection.py): the
  window-labelling rule of `predict`, the block-rescoring pass
  `_rescore_wear_detection` and the query `get_major_wear_block` are
  embedded over lists.

Machine floats are modelled by rationals; numpy floor-division (`//=`)
is `Int.floor`, and numpy `astype(int)` is truncation toward zero.
-/

namespace BioPsyKit

namespace ActivityCounts

/-- One stage of `ActivityCounts.calculate`'s pipeline, with the sampling
rates that parameterise it (`downsample fsIn fsOut` is
`_downsample(data, fsIn, fsOut)`, `aliasingFilter fs` is
`_aliasing_filter(data, fs)`). -/
inductive ACStage where
  | computeNorm : ACStage
  | downsample (fsIn fsOut : ℚ) : ACStage
  | aliasingFilter (fs : ℚ) : ACStage
  | actigraphFilter : ACStage
  | rectify : ACStage
  | truncate : ACStage
  | digitize8bit : ACStage
  | accumulateMinuteBins : ACStage
  deriving DecidableEq, Repr

/-- The `ValueError` message raised by `calculate` for bad dimensionality:
`"{} takes only 1D or 3D accelerometer data! Got {}D data."` formatted
with the class name and the channel count. -/
def dimErrorMsg (nCols : Nat) : String :=
  "ActivityCounts takes only 1D or 3D accelerometer data! Got " ++
    toString nCols ++ "D data."

/-- Stage trace of `ActivityCounts.calculate`: the dimensionality check
(`data.shape[1] not in (1, 3)` raises), the conditional norm
(`data.shape[1] != 1`), then the fixed sequence of calls
`_downsample(data, sampling_rate, 30)`, `_aliasing_filter(data, 30)`,
`_actigraph_filter`, `_downsample(data, 30, 10)`, `np.abs`, `_truncate`,
`_digitize_8bit`, `_accumulate_minute_bins`, in source order. -/
def calculateStages (nCols : Nat) (samplingRate : ℚ) :
    Except String (List ACStage) :=
  if nCols ≠ 1 ∧ nCols ≠ 3 then
    Except.error (dimErrorMsg nCols)
  else
    Except.ok ((if nCols ≠ 1 then [ACStage.computeNorm] else []) ++
      [ACStage.downsample samplingRate 30,
       ACStage.aliasingFilter 30,
       ACStage.actigraphFilter,
       ACStage.downsample 30 10,
       ACStage.rectify,
       ACStage.truncate,
       ACStage.digitize8bit,
       ACStage.accumulateMinuteBins])

/-- Stage order as the spec's §4.2 words describe it: norm, then the
band-pass anti-aliasing filter at the input sampling rate, then
down-sample to 30 Hz, then the device-response filter, then down-sample
to 10 Hz, rectify, truncate, quantize, minute binning.  This definition
follows the spec text, to be compared with `calculateStages`. -/
def specStages (nCols : Nat) (samplingRate : ℚ) :
    Except String (List ACStage) :=
  if nCols ≠ 1 ∧ nCols ≠ 3 then
    Except.error (dimErrorMsg nCols)
  else
    Except.ok ((if nCols ≠ 1 then [ACStage.computeNorm] else []) ++
      [ACStage.aliasingFilter samplingRate,
       ACStage.downsample samplingRate 30,
       ACStage.actigraphFilter,
       ACStage.downsample 30 10,
       ACStage.rectify,
       ACStage.truncate,
       ACStage.digitize8bit,
       ACStage.accumulateMinuteBins])

/-- Amended stage order (what the code does): norm, then down-sample to
30 Hz, then the band-pass filter at 30 Hz, then the device-response
filter, then down-sample to 10 Hz, rectify, truncate, quantize, minute
binning.  Written from the amended claim's words, to be compared with
`calculateStages`. -/
def amendedStages (nCols : Nat) (samplingRate : ℚ) :
    Except String (List ACStage) :=
  if nCols ≠ 1 ∧ nCols ≠ 3 then
    Except.error (dimErrorMsg nCols)
  else
    Except.ok ((if nCols ≠ 1 then [ACStage.computeNorm] else []) ++
      [ACStage.downsample samplingRate 30,
       ACStage.aliasingFilter 30,
       ACStage.actigraphFilter,
       ACStage.downsample 30 10,
       ACStage.rectify,
       ACStage.truncate,
       ACStage.digitize8bit,
       ACStage.accumulateMinuteBins])

/-- Stage `ActivityCounts._truncate` on one sample: `data[data > 2.13] = 2.13`
then `data[data < 0.068] = 0`. -/
def _truncate (v : ℚ) : ℚ :=
  let v1 := if 2.13 < v then 2.13 else v
  if v1 < 0.068 then 0 else v1

/-- Stage `ActivityCounts._digitize_8bit` on one sample:
`data //= 2.13 / (2 ** 7)` (numpy floor division). -/
def _digitize_8bit (v : ℚ) : ℚ :=
  ((⌊v / (2.13 / 2 ^ 7)⌋ : ℤ) : ℚ)

/-- Samples per minute bin in `_accumulate_minute_bins`:
`n_samples = 10 * 60`. -/
def nSamples : Nat := 10 * 60

/-- The zero-padded sequence built by `_accumulate_minute_bins`:
`np.pad(data, (0, n_samples - len(data) % n_samples), 'constant',
constant_values=0)`. -/
def paddedData (data : List ℚ) : List ℚ :=
  data ++ List.replicate (nSamples - data.length % nSamples) 0

/-- Stage `ActivityCounts._accumulate_minute_bins`: pad, reshape into rows of
`n_samples`, and take the mean of each row
(`padded_data.reshape((len(padded_data) // n_samples, -1)).mean(axis=1)`). -/
def _accumulate_minute_bins (data : List ℚ) : List ℚ :=
  let padded := paddedData data
  (List.range (padded.length / nSamples)).map
    (fun i => (((padded.drop (nSamples * i)).take nSamples).sum) / nSamples)

/-- Truncation toward zero of a rational, modelling numpy's
`astype(int)` cast. -/
def npTruncInt (q : ℚ) : ℤ :=
  if q < 0 then ⌈q⌉ else ⌊q⌋

/-- The module constant `biopsykit.utils.tz`.  Its defining module is not
part of the sources here; `io.py`'s docstrings document its value as the
default timezone `'Europe/Berlin'`. -/
def tz : String := "Europe/Berlin"

/-- Timezone of the output index built by `calculate`:
`.tz_convert(tz)` converts to the module constant `tz`, whatever the
input index's timezone was. -/
def outputIndexTz (_inputTz : String) : String := tz

/-- Epoch second of output row `i` as built by `calculate`:
`start_time = float(start_time.to_datetime64()) / 1e9` (nanoseconds to
seconds) and the index is `(data.index * 60 + start_time).astype(int)`
interpreted with `unit='s'`.  `startNs` is the input index's first
timestamp in nanoseconds. -/
def outputTimestampSec (startNs : ℤ) (i : ℕ) : ℤ :=
  npTruncInt ((i : ℚ) * 60 + (startNs : ℚ) / 1000000000)

end ActivityCounts

namespace WearDetection

/-- Per-axis count of the std criterion in `predict`:
`acc_std[acc_std >= 0.013] = 1; acc_std[acc_std < 0.013] = 0;
np.nansum(acc_std, axis=1)`, given the per-axis windowed standard
deviations of one window. -/
def stdAxisCount (stds : List ℚ) : ℚ :=
  (stds.map (fun s => if 0.013 ≤ s then (1 : ℚ) else 0)).sum

/-- Per-axis count of the range criterion in `predict`:
`acc_range[acc_range >= 0.15] = 1; acc_range[acc_range < 0.15] = 0;
np.nansum(acc_range, axis=1)`, given the per-axis (max - min) ranges of
one window. -/
def rangeAxisCount (ranges : List ℚ) : ℚ :=
  (ranges.map (fun r => if 0.15 ≤ r then (1 : ℚ) else 0)).sum

/-- The wear label of one window in `predict`:
`wear = np.ones(...); wear[np.logical_or(acc_std < 1.0, acc_range < 1.0)] = 0.0`. -/
def wearLabel (stds ranges : List ℚ) : ℚ :=
  if stdAxisCount stds < 1 ∨ rangeAxisCount ranges < 1 then 0 else 1

/-- Run-length encoding of the wear column: the block grouping made by
`data["block"] = data["wear"].diff().ne(0).cumsum()` followed by
`data.groupby("block")`, recorded as (label, window count) per block in
order. -/
def rle : List ℚ → List (ℚ × Nat)
  | [] => []
  | a :: rest =>
    match rle rest with
    | [] => [(a, 1)]
    | (b, n) :: t => if a = b then (b, n + 1) :: t else (a, 1) :: (b, n) :: t

/-- Expand a block list back into the per-window label column. -/
def expand (blocks : List (ℚ × Nat)) : List ℚ :=
  (blocks.map (fun b => List.replicate b.2 b.1)).flatten

/-- The rescoring decision of `_rescore_wear_detection` for block `i`,
translated from the loop over
`zip(blocks[0:-2], blocks[1:-1], blocks[2:])`: block `i` is visited when
it has both neighbours; `if curr["wear"].unique():` is numpy truthiness
of the block's constant label (label ≠ 0); durations are
`len(dur) * 0.25` hours; the two branches are the `< 3 h, < 0.8` and
`< 6 h, < 0.3` rules. -/
def relabel (blocks : List (ℚ × Nat)) (i : Nat) : Bool :=
  let curr := blocks.getD i (0, 0)
  let durPrev := ((blocks.getD (i - 1) (0, 0)).2 : ℚ) * 0.25
  let durCurr := (curr.2 : ℚ) * 0.25
  let durPost := ((blocks.getD (i + 1) (0, 0)).2 : ℚ) * 0.25
  if 1 ≤ i ∧ i + 1 < blocks.length ∧ curr.1 ≠ 0 then
    if durCurr < 3 ∧ durCurr / (durPrev + durPost) < 0.8 then true
    else if durCurr < 6 ∧ durCurr / (durPrev + durPost) < 0.3 then true
    else false
  else false

/-- One pass of `WearDetection._rescore_wear_detection` on the wear
column: group into blocks, relabel each block whose `relabel` decision
fires to 0 (`data.loc[data["block"] == idx_curr, "wear"] = 0`; the
decisions all read the block snapshot taken before the loop), and drop
the block column. -/
def _rescore_wear_detection (wear : List ℚ) : List ℚ :=
  let blocks := rle wear
  expand ((List.range blocks.length).map (fun i =>
    let b := blocks.getD i (0, 0)
    (if relabel blocks i then 0 else b.1, b.2)))

/-- The rescoring decision as the claim words it: the block is interior
(has both a previous and a next block), is currently labeled wear (1),
and with durations of (window count × 0.25 h), either duration < 3 h
with ratio < 0.8, or duration < 6 h with ratio < 0.3.  This definition
follows the claim's words, to be compared with `relabel`. -/
def claimRelabel (blocks : List (ℚ × Nat)) (i : Nat) : Bool :=
  let curr := blocks.getD i (0, 0)
  let durPrev := ((blocks.getD (i - 1) (0, 0)).2 : ℚ) * 0.25
  let durCurr := (curr.2 : ℚ) * 0.25
  let durPost := ((blocks.getD (i + 1) (0, 0)).2 : ℚ) * 0.25
  decide (0 < i ∧ i + 1 < blocks.length ∧ curr.1 = 1 ∧
    ((durCurr < 3 ∧ durCurr / (durPrev + durPost) < 0.8) ∨
     (durCurr < 6 ∧ durCurr / (durPrev + durPost) < 0.3)))

/-- One rescoring pass as the claim describes it: every block keeps its
label except blocks on which `claimRelabel` fires, which become 0. -/
def rescoreClaim (wear : List ℚ) : List ℚ :=
  let blocks := rle wear
  expand ((List.range blocks.length).map (fun i =>
    let b := blocks.getD i (0, 0)
    (if claimRelabel blocks i then 0 else b.1, b.2)))

/-- One row of the wear table handed to `get_major_wear_block`: the
`wear` label and the `start`/`end` timestamps of the window (epoch
seconds). -/
structure WearRow where
  wear : ℚ
  startTs : ℤ
  endTs : ℤ
  deriving DecidableEq, Repr

/-- Default row used only to express `iloc` lookups totally. -/
def defaultRow : WearRow := ⟨0, 0, 0⟩

/-- Group consecutive rows with equal `wear` label into maximal runs:
the grouping made by `wear_data["block"] = wear_data["wear"].diff().ne(0).cumsum()`
and `groupby("block")`. -/
def groupRuns : List WearRow → List (List WearRow)
  | [] => []
  | r :: rest =>
    match groupRuns rest with
    | [] => [[r]]
    | g :: gs =>
      if (g.headD defaultRow).wear = r.wear then (r :: g) :: gs
      else [r] :: g :: gs

/-- The all-wear blocks of `get_major_wear_block`:
`.filter(lambda x: (x["wear"] == 1.0).all())` over the block grouping. -/
def wearBlocks (rows : List WearRow) : List (List WearRow) :=
  (groupRuns rows).filter (fun g => g.all (fun r => decide (r.wear = 1)))

/-- Accumulator loop of `np.argmax` over a list of naturals: index of the first occurrence
of the maximum; `none` on the empty list, where numpy raises
`ValueError: attempt to get argmax of an empty sequence`. -/
def argmaxAux : List Nat → Nat → Nat → Nat → Nat
  | [], _, bi, _ => bi
  | x :: xs, i, bi, bv =>
    if bv < x then argmaxAux xs (i + 1) i x else argmaxAux xs (i + 1) bi bv

/-- Total `np.argmax` wrapper (see `argmaxAux`). -/
def npArgmax : List Nat → Option Nat
  | [] => none
  | x :: xs => some (argmaxAux xs 1 0 x)

/-- Python-level error outcomes relevant to `get_major_wear_block`: the
built-in `ValueError` (with its message) and the spec's taxonomy name
`EmptyResultError` (no such class exists in the sources; it is included
so that statements about it can be expressed). -/
inductive PyError where
  | valueError (msg : String) : PyError
  | emptyResultError : PyError
  deriving DecidableEq, Repr

/-- Query `WearDetection.get_major_wear_block`: group into blocks, keep the
all-wear blocks, pick `wear_blocks[np.argmax([len(b) for i, b in
wear_blocks])]`, and return `(max_block["start"].iloc[0],
max_block["end"].iloc[-1])`.  With no wear block, `np.argmax` raises. -/
def get_major_wear_block (rows : List WearRow) : Except PyError (ℤ × ℤ) :=
  let wbs := wearBlocks rows
  match npArgmax (wbs.map List.length) with
  | none =>
    Except.error (PyError.valueError "attempt to get argmax of an empty sequence")
  | some idx =>
    let maxBlock := wbs.getD idx []
    Except.ok ((maxBlock.headD defaultRow).startTs,
               (maxBlock.getLastD defaultRow).endTs)

end WearDetection

/-! ### Helper lemmas -/

namespace ActivityCounts

theorem npTruncInt_intCast (m : ℤ) : npTruncInt (m : ℚ) = m := by
  unfold npTruncInt
  split <;> simp

theorem sum_drop_take (l : List ℚ) (a b : Nat) (h : a + b ≤ l.length) :
    ((l.drop a).take b).sum = ∑ j ∈ Finset.range b, l.getD (a + j) 0 := by
  induction b generalizing a with
  | zero => simp
  | succ b ih =>
    have ha : a < l.length := by omega
    rw [List.drop_eq_getElem_cons ha, List.take_succ_cons, List.sum_cons,
      Finset.sum_range_succ', ih (a + 1) (by omega)]
    have h0 : l.getD (a + 0) 0 = l[a] := by
      simp [List.getD_eq_getElem l 0 ha, List.getElem?_eq_getElem ha]
    rw [h0, add_comm]
    congr 1
    exact Finset.sum_congr rfl fun j _ => by
      rw [show a + 1 + j = a + (j + 1) by omega]

theorem paddedData_length (data : List ℚ) :
    (paddedData data).length = data.length + (600 - data.length % 600) := by
  simp only [paddedData, List.length_append, List.length_replicate,
    show nSamples = 600 from rfl]

theorem paddedData_length_mod (data : List ℚ) :
    (paddedData data).length % 600 = 0 := by
  rw [paddedData_length]
  omega

end ActivityCounts

namespace WearDetection

theorem indicatorSum_nonneg (l : List ℚ) (t : ℚ) :
    0 ≤ (l.map (fun s => if t ≤ s then (1 : ℚ) else 0)).sum := by
  induction l with
  | nil => simp
  | cons a l ih =>
    simp only [List.map_cons, List.sum_cons]
    split <;> linarith

theorem indicatorSum_lt_one_iff (l : List ℚ) (t : ℚ) :
    (l.map (fun s => if t ≤ s then (1 : ℚ) else 0)).sum < 1 ↔ ∀ s ∈ l, s < t := by
  induction l with
  | nil => simp
  | cons a l ih =>
    simp only [List.map_cons, List.sum_cons, List.mem_cons]
    have hnn := indicatorSum_nonneg l t
    constructor
    · intro h s hs
      by_cases hta : t ≤ a
      · rw [if_pos hta] at h
        linarith
      · rcases hs with rfl | hs
        · linarith [not_le.mp hta]
        · by_cases hrest : (l.map (fun s => if t ≤ s then (1 : ℚ) else 0)).sum < 1
          · exact ih.mp hrest s hs
          · rw [if_neg hta] at h
            linarith
    · intro h
      rw [if_neg (not_le.mpr (h a (Or.inl rfl)))]
      have := ih.mpr (fun s hs => h s (Or.inr hs))
      linarith

end WearDetection

/-! ### Claim theorems: ActivityCounts -/

namespace ActivityCounts

/-- C1 counterexample: at 3-channel input and 100 Hz, the stage trace of
`ActivityCounts.calculate` differs from the spec's order (band-pass at
the input rate before the 30 Hz down-sample): the code down-samples to
30 Hz first and then band-pass filters at 30 Hz. -/
theorem calculate_stage_order_counterexample :
    calculateStages 3 100 ≠ specStages 3 100 ∧
    calculateStages 3 100 = Except.ok
      [ACStage.computeNorm, ACStage.downsample 100 30, ACStage.aliasingFilter 30,
       ACStage.actigraphFilter, ACStage.downsample 30 10, ACStage.rectify,
       ACStage.truncate, ACStage.digitize8bit, ACStage.accumulateMinuteBins] ∧
    specStages 3 100 = Except.ok
      [ACStage.computeNorm, ACStage.aliasingFilter 100, ACStage.downsample 100 30,
       ACStage.actigraphFilter, ACStage.downsample 30 10, ACStage.rectify,
       ACStage.truncate, ACStage.digitize8bit, ACStage.accumulateMinuteBins] := by
  have hc : calculateStages 3 100 = Except.ok
      [ACStage.computeNorm, ACStage.downsample 100 30, ACStage.aliasingFilter 30,
       ACStage.actigraphFilter, ACStage.downsample 30 10, ACStage.rectify,
       ACStage.truncate, ACStage.digitize8bit, ACStage.accumulateMinuteBins] := rfl
  have hs : specStages 3 100 = Except.ok
      [ACStage.computeNorm, ACStage.aliasingFilter 100, ACStage.downsample 100 30,
       ACStage.actigraphFilter, ACStage.downsample 30 10, ACStage.rectify,
       ACStage.truncate, ACStage.digitize8bit, ACStage.accumulateMinuteBins] := rfl
  refine ⟨fun h => ?_, hc, hs⟩
  rw [hc, hs] at h
  injection h with h
  exact absurd h (by decide)

/-- C1 amended: for every accepted input (1 or 3 channels) the pipeline
stages of `calculate` run in the order: per-sample norm (3-axis only),
down-sample to 30 Hz, zero-phase band-pass filter at 30 Hz, the
fixed-coefficient device-response filter, down-sample to 10 Hz, rectify,
truncate, quantize, minute binning — and this differs from the spec's
stated order for every sampling rate. -/
theorem calculate_stage_order (nCols : Nat) (fs : ℚ)
    (h : nCols = 1 ∨ nCols = 3) :
    calculateStages nCols fs = amendedStages nCols fs ∧
    calculateStages nCols fs ≠ specStages nCols fs := by
  rcases h with rfl | rfl <;>
    exact ⟨rfl, by simp [calculateStages, specStages]⟩

/-- C1 witness: the amended order theorem applied at a 3-channel input
sampled at 100 Hz. -/
theorem calculate_stage_order_witness :
    calculateStages 3 100 = amendedStages 3 100 ∧
    calculateStages 3 100 ≠ specStages 3 100 :=
  calculate_stage_order 3 100 (Or.inr rfl)

/-- C9: a channel count other than 1 or 3 makes `calculate` raise the
dimensionality `ValueError` (the spec's `ValidationError`), whose
message names the offending dimensionality, and no stage list (hence no
pipeline work, no partial result) is produced. -/
theorem calculate_dimensionality_error (nCols : Nat) (fs : ℚ)
    (h1 : nCols ≠ 1) (h3 : nCols ≠ 3) :
    calculateStages nCols fs = Except.error (dimErrorMsg nCols) ∧
    dimErrorMsg nCols =
      "ActivityCounts takes only 1D or 3D accelerometer data! Got " ++
        toString nCols ++ "D data." ∧
    ∀ stages, calculateStages nCols fs ≠ Except.ok stages := by
  have he : calculateStages nCols fs = Except.error (dimErrorMsg nCols) := by
    unfold calculateStages
    rw [if_pos ⟨h1, h3⟩]
  exact ⟨he, rfl, fun stages hok => by
    rw [he] at hok
    exact Except.noConfusion hok⟩

/-- C9 witness: a 2-column input at 256 Hz is rejected with the message
naming 2D. -/
theorem calculate_dimensionality_error_witness :
    calculateStages 2 256 = Except.error (dimErrorMsg 2) ∧
    dimErrorMsg 2 =
      "ActivityCounts takes only 1D or 3D accelerometer data! Got " ++
        toString 2 ++ "D data." :=
  ⟨(calculate_dimensionality_error 2 256 (by decide) (by decide)).1,
   (calculate_dimensionality_error 2 256 (by decide) (by decide)).2.1⟩

/-- C7: `_truncate` clamps values above 2.13 g to 2.13 and snaps values
below 0.068 g to 0, and every nonnegative (rectified) sample quantizes
under `_digitize_8bit` to a count within the 8-bit range [0, 255]. -/
theorem truncate_digitize_8bit_range (v : ℚ) :
    (2.13 < v → _truncate v = 2.13) ∧
    (v < 0.068 → _truncate v = 0) ∧
    (0 ≤ v → 0 ≤ _digitize_8bit (_truncate v) ∧
      _digitize_8bit (_truncate v) ≤ 255) := by
  refine ⟨?_, ?_, ?_⟩
  · intro h
    simp only [_truncate]
    rw [if_pos h, if_neg (by norm_num : ¬ (2.13 : ℚ) < 0.068)]
  · intro h
    have h2 : ¬ (2.13 : ℚ) < v := by linarith
    simp only [_truncate]
    rw [if_neg h2, if_pos h]
  · intro h0
    have hb : 0 ≤ _truncate v ∧ _truncate v ≤ 2.13 := by
      simp only [_truncate]
      split
      case isTrue h =>
        rw [if_neg (by norm_num : ¬ (2.13 : ℚ) < 0.068)]
        constructor <;> norm_num
      case isFalse h =>
        split
        case isTrue h' => constructor <;> norm_num
        case isFalse h' =>
          exact ⟨h0, le_of_not_lt h⟩
    obtain ⟨ht0, ht1⟩ := hb
    simp only [_digitize_8bit]
    have hc : (0 : ℚ) < 2.13 / 2 ^ 7 := by norm_num
    constructor
    · have hnn : (0 : ℤ) ≤ ⌊_truncate v / (2.13 / 2 ^ 7)⌋ :=
        Int.floor_nonneg.mpr (div_nonneg ht0 hc.le)
      exact_mod_cast hnn
    · have hle : _truncate v / (2.13 / 2 ^ 7) ≤ 128 := by
        rw [div_le_iff₀ hc]
        have h128 : (128 : ℚ) * (2.13 / 2 ^ 7) = 2.13 := by norm_num
        linarith
      have hfl : (⌊_truncate v / (2.13 / 2 ^ 7)⌋ : ℚ) ≤ 128 :=
        le_trans (Int.floor_le _) hle
      linarith

/-- C7 witness: a 3 g sample clamps to 2.13, a 0.05 g sample snaps to 0,
and the clamped sample's count lies in [0, 255]. -/
theorem truncate_digitize_8bit_range_witness :
    _truncate 3 = 2.13 ∧ _truncate 0.05 = 0 ∧
    0 ≤ _digitize_8bit (_truncate 3) ∧ _digitize_8bit (_truncate 3) ≤ 255 :=
  ⟨(truncate_digitize_8bit_range 3).1 (by norm_num),
   (truncate_digitize_8bit_range 0.05).2.1 (by norm_num),
   ((truncate_digitize_8bit_range 3).2.2 (by norm_num)).1,
   ((truncate_digitize_8bit_range 3).2.2 (by norm_num)).2⟩

/-- C4 counterexample: a length-1 input is padded to 600 samples, which
is not a multiple of 6000 — the minute bin holds 600 samples
(10 Hz × 60 s), not 6000. -/
theorem minute_bins_pad_counterexample :
    (paddedData [1]).length = 600 ∧ (paddedData [1]).length % 6000 ≠ 0 := by
  have h : (paddedData [1]).length = 600 := by
    rw [paddedData_length]
    simp
  exact ⟨h, by rw [h]; decide⟩

/-- C4 amended: `_accumulate_minute_bins` zero-pads the tail to a
multiple of 600 samples (10 Hz × 60 s), reshapes into 1-minute groups of
600 samples, and outputs the mean of each group. -/
theorem minute_bins_amended (data : List ℚ) :
    (paddedData data).length % 600 = 0 ∧
    (_accumulate_minute_bins data).length = (paddedData data).length / 600 ∧
    ∀ i, i < (_accumulate_minute_bins data).length →
      (_accumulate_minute_bins data).getD i 0 =
        (∑ j ∈ Finset.range 600, (paddedData data).getD (600 * i + j) 0) / 600 := by
  have hf : _accumulate_minute_bins data =
      (List.range ((paddedData data).length / 600)).map
        (fun i => (((paddedData data).drop (600 * i)).take 600).sum / 600) := by
    simp only [_accumulate_minute_bins, show nSamples = 600 from rfl,
      Nat.cast_ofNat]
  refine ⟨paddedData_length_mod data, by rw [hf]; simp, ?_⟩
  intro i hi
  rw [hf] at hi ⊢
  simp only [List.length_map, List.length_range] at hi
  have hmod := paddedData_length_mod data
  have hbound : 600 * i + 600 ≤ (paddedData data).length := by omega
  rw [List.getD_eq_getElem _ _ (by simpa using hi)]
  simp only [List.getElem_map, List.getElem_range]
  rw [sum_drop_take _ _ _ hbound]

/-- C4 witness: the amended minute-binning theorem applied to a
601-sample input: it pads to 1200 samples and bin 1 is the mean of
samples 600 to 1199. -/
theorem minute_bins_amended_witness :
    (paddedData (List.replicate 601 1)).length % 600 = 0 ∧
    1 < (_accumulate_minute_bins (List.replicate 601 (1 : ℚ))).length ∧
    (_accumulate_minute_bins (List.replicate 601 (1 : ℚ))).getD 1 0 =
      (∑ j ∈ Finset.range 600,
        (paddedData (List.replicate 601 (1 : ℚ))).getD (600 * 1 + j) 0) / 600 := by
  have hlen : (_accumulate_minute_bins (List.replicate 601 (1 : ℚ))).length = 2 := by
    have := (minute_bins_amended (List.replicate 601 (1 : ℚ))).2.1
    rw [this, paddedData_length]
    simp
  exact ⟨(minute_bins_amended (List.replicate 601 (1 : ℚ))).1,
    by rw [hlen]; decide,
    (minute_bins_amended (List.replicate 601 (1 : ℚ))).2.2 1 (by rw [hlen]; decide)⟩

/-- C10: when the input length is a positive exact multiple of 600,
`_accumulate_minute_bins` pads a full extra 600 zeros, so there are
length/600 + 1 bins and the final bin is exactly 0; otherwise there are
ceil(length/600) bins. -/
theorem minute_bins_exact_multiple (data : List ℚ) :
    (0 < data.length → data.length % 600 = 0 →
      (_accumulate_minute_bins data).length = data.length / 600 + 1 ∧
      (_accumulate_minute_bins data).getLast? = some 0) ∧
    (¬ data.length % 600 = 0 →
      (_accumulate_minute_bins data).length = (data.length + 599) / 600) := by
  have hf : _accumulate_minute_bins data =
      (List.range ((paddedData data).length / 600)).map
        (fun i => (((paddedData data).drop (600 * i)).take 600).sum / 600) := by
    simp only [_accumulate_minute_bins, show nSamples = 600 from rfl,
      Nat.cast_ofNat]
  have hlen : (_accumulate_minute_bins data).length =
      (paddedData data).length / 600 := by
    rw [hf]; simp
  have hplen := paddedData_length data
  constructor
  · intro hpos hmod
    have hp6 : (paddedData data).length = data.length + 600 := by omega
    refine ⟨by rw [hlen, hp6]; omega, ?_⟩
    rw [List.getLast?_eq_getElem?]
    have hidx : (_accumulate_minute_bins data).length - 1 = data.length / 600 := by
      rw [hlen, hp6]; omega
    rw [hidx, hf]
    have hin : data.length / 600 < (paddedData data).length / 600 := by
      rw [hp6]; omega
    rw [List.getElem?_map, List.getElem?_range hin]
    have h600 : 600 * (data.length / 600) = data.length := by omega
    have hpd : paddedData data = data ++ List.replicate 600 0 := by
      unfold paddedData
      rw [show nSamples = 600 from rfl, hmod]
    simp only [Option.map_some', h600, hpd, List.drop_left]
    simp
  · intro hmod
    rw [hlen, hplen]; omega

/-- C10 witness: a 600-sample input yields 2 bins with final bin 0, and
a 601-sample input yields 2 = ceil(601/600) bins. -/
theorem minute_bins_exact_multiple_witness :
    ((_accumulate_minute_bins (List.replicate 600 (1 : ℚ))).length =
      (List.replicate 600 (1 : ℚ)).length / 600 + 1 ∧
     (_accumulate_minute_bins (List.replicate 600 (1 : ℚ))).getLast? = some 0) ∧
    (_accumulate_minute_bins (List.replicate 601 (1 : ℚ))).length =
      ((List.replicate 601 (1 : ℚ)).length + 599) / 600 :=
  ⟨(minute_bins_exact_multiple (List.replicate 600 (1 : ℚ))).1
      (by simp only [List.length_replicate]; omega) (by simp only [List.length_replicate]),
   (minute_bins_exact_multiple (List.replicate 601 (1 : ℚ))).2 (by simp only [List.length_replicate]; omega)⟩

/-- C8 counterexample: with a start-of-recording time of 0.5 s past the
epoch (500000000 ns), output bin 0 is stamped at 0 s, not at the
start-of-recording time plus 0 × 60 s; and the output index timezone is
the module constant `tz`, not the input index's timezone. -/
theorem calculate_timestamps_counterexample :
    outputTimestampSec 500000000 0 = 0 ∧
    ¬ ((outputTimestampSec 500000000 0 : ℚ) =
        (500000000 : ℚ) / 1000000000 + 60 * ((0 : ℕ) : ℚ)) ∧
    outputIndexTz "UTC" ≠ "UTC" := by
  have h0 : outputTimestampSec 500000000 0 = 0 := by
    norm_num [outputTimestampSec, npTruncInt]
  refine ⟨h0, by rw [h0]; norm_num, by decide⟩

/-- C8 amended: whenever the start-of-recording timestamp is a whole
number of seconds, every output row's epoch second equals the
start-of-recording time plus bin_index × 60 s (otherwise it is the
truncation of that sum to whole seconds), and the output index carries
the module constant timezone `tz`, not necessarily the input's. -/
theorem calculate_timestamps_amended (startNs : ℤ) (i : ℕ) (tzIn : String)
    (h : startNs % 1000000000 = 0) :
    (outputTimestampSec startNs i : ℚ) =
      (startNs : ℚ) / 1000000000 + 60 * (i : ℚ) ∧
    outputIndexTz tzIn = tz := by
  obtain ⟨k, rfl⟩ : ∃ k : ℤ, startNs = 1000000000 * k :=
    ⟨startNs / 1000000000, by omega⟩
  have hdiv : ((1000000000 * k : ℤ) : ℚ) / 1000000000 = (k : ℚ) := by
    push_cast
    field_simp
  constructor
  · have harg : ((i : ℚ)) * 60 + ((1000000000 * k : ℤ) : ℚ) / 1000000000 =
        (((i : ℤ) * 60 + k : ℤ) : ℚ) := by
      rw [hdiv]; push_cast; ring
    rw [outputTimestampSec, harg, npTruncInt_intCast, hdiv]
    push_cast
    ring
  · rfl

/-- C8 witness: the amended timestamp theorem at a whole-second start
time (1 s past the epoch) and bin 2: the stamp is 1 + 120 s. -/
theorem calculate_timestamps_amended_witness :
    (outputTimestampSec 1000000000 2 : ℚ) =
      (1000000000 : ℚ) / 1000000000 + 60 * ((2 : ℕ) : ℚ) ∧
    outputIndexTz "Europe/Berlin" = tz :=
  calculate_timestamps_amended 1000000000 2 "Europe/Berlin" (by decide)

end ActivityCounts

/-! ### Claim theorems: WearDetection window labelling -/

namespace WearDetection

/-- C3: a window is labelled non-wear (0) exactly when no axis has
windowed std ≥ 0.013 g or no axis has windowed range ≥ 0.15 g; otherwise
it is labelled wear (1); in particular per-axis std [0.02, 0, 0] and
range [0.2, 0, 0] give wear = 1. -/
theorem predict_window_label (stds ranges : List ℚ) :
    (wearLabel stds ranges = 0 ↔
      ((∀ s ∈ stds, s < 0.013) ∨ (∀ r ∈ ranges, r < 0.15))) ∧
    (wearLabel stds ranges = 0 ∨ wearLabel stds ranges = 1) ∧
    wearLabel [0.02, 0, 0] [0.2, 0, 0] = 1 := by
  have hs := indicatorSum_lt_one_iff stds (0.013 : ℚ)
  have hr := indicatorSum_lt_one_iff ranges (0.15 : ℚ)
  refine ⟨?_, ?_, by norm_num [wearLabel, stdAxisCount, rangeAxisCount]⟩
  · unfold wearLabel
    by_cases h : stdAxisCount stds < 1 ∨ rangeAxisCount ranges < 1
    · rw [if_pos h]
      refine iff_of_true rfl ?_
      rcases h with h | h
      · exact Or.inl (hs.mp (by simpa [stdAxisCount] using h))
      · exact Or.inr (hr.mp (by simpa [rangeAxisCount] using h))
    · rw [if_neg h]
      refine iff_of_false (by norm_num) ?_
      intro hc
      apply h
      rcases hc with hc | hc
      · exact Or.inl (by simpa [stdAxisCount] using hs.mpr hc)
      · exact Or.inr (by simpa [rangeAxisCount] using hr.mpr hc)
  · unfold wearLabel
    split
    · exact Or.inl rfl
    · exact Or.inr rfl

/-! ### Rescoring: helper lemmas and the C2 refinement theorem -/

theorem ifPQ (P Q : Prop) [Decidable P] [Decidable Q] :
    (if P then true else if Q then true else false) = decide (P ∨ Q) := by
  by_cases hP : P <;> by_cases hQ : Q <;> simp [hP, hQ]

theorem ifCond (R : Prop) [Decidable R] (b : Bool) :
    (if R then b else false) = (decide R && b) := by
  by_cases hR : R <;> simp [hR]

theorem rle_label_mem (l : List ℚ) : ∀ b ∈ rle l, b.1 ∈ l := by
  induction l with
  | nil => intro b hb; simp [rle] at hb
  | cons a rest ih =>
    intro b hb
    rw [rle] at hb
    cases hrest : rle rest with
    | nil =>
      rw [hrest] at hb
      simp at hb
      simp [hb]
    | cons c t =>
      rw [hrest] at hb
      obtain ⟨cb, cn⟩ := c
      have hb2 : b ∈ if a = cb then (cb, cn + 1) :: t
          else (a, 1) :: (cb, cn) :: t := hb
      by_cases hab : a = cb
      · rw [if_pos hab] at hb2
        rcases List.mem_cons.mp hb2 with hb | hb
        · subst hb
          simp [hab]
        · have : b ∈ rle rest := by rw [hrest]; exact List.mem_cons_of_mem _ hb
          exact List.mem_cons_of_mem _ (ih b this)
      · rw [if_neg hab] at hb2
        rcases List.mem_cons.mp hb2 with hb | hb
        · subst hb
          simp
        · have : b ∈ rle rest := by rw [hrest]; exact hb
          exact List.mem_cons_of_mem _ (ih b this)

theorem relabel_eq_claimRelabel (blocks : List (ℚ × Nat)) (i : Nat)
    (h : ∀ b ∈ blocks, b.1 = 0 ∨ b.1 = 1) :
    relabel blocks i = claimRelabel blocks i := by
  by_cases hn : i + 1 < blocks.length
  case neg =>
    have e1 : relabel blocks i = false := by
      simp only [relabel]
      rw [if_neg (fun hc => hn hc.2.1)]
    have e2 : claimRelabel blocks i = false := by
      simp only [claimRelabel]
      exact decide_eq_false (fun hc => hn hc.2.1)
    rw [e1, e2]
  case pos =>
    have hmem : blocks.getD i (0, 0) ∈ blocks := by
      rw [List.getD_eq_getElem _ _ (by omega)]
      exact List.getElem_mem _
    rcases h _ hmem with h0 | h1
    · have e1 : relabel blocks i = false := by
        simp only [relabel]
        rw [if_neg (fun hc => hc.2.2 h0)]
      have e2 : claimRelabel blocks i = false := by
        simp only [claimRelabel]
        exact decide_eq_false
          (fun hc => absurd (h0.symm.trans hc.2.2.1) (by norm_num))
      rw [e1, e2]
    · simp only [relabel, claimRelabel]
      rw [ifPQ, ifCond, ← Bool.decide_and, decide_eq_decide]
      constructor
      · rintro ⟨⟨hi1, hi2, _⟩, hc⟩
        exact ⟨hi1, hi2, h1, hc⟩
      · rintro ⟨hi1, hi2, _, hc⟩
        exact ⟨⟨hi1, hi2, by rw [h1]; norm_num⟩, hc⟩

/-- C2: one rescoring pass of `_rescore_wear_detection`, over a 0/1 wear
labelling, relabels a block to non-wear exactly when the block is
interior, currently labelled wear, and its 0.25 h-per-window duration
satisfies (< 3 h with ratio < 0.8) or (< 6 h with ratio < 0.3); all
other blocks keep their label, so only wear → non-wear changes occur.
`rescoreClaim` is that description written from the claim's words. -/
theorem rescore_pass_matches_claim (wear : List ℚ)
    (h : ∀ w ∈ wear, w = 0 ∨ w = 1) :
    _rescore_wear_detection wear = rescoreClaim wear := by
  have hb : ∀ b ∈ rle wear, b.1 = 0 ∨ b.1 = 1 :=
    fun b hbm => h _ (rle_label_mem wear b hbm)
  simp only [_rescore_wear_detection, rescoreClaim]
  congr 1
  apply List.map_congr_left
  intro i _
  simp only [relabel_eq_claimRelabel _ _ hb]

/-- C2 witness: the rescoring refinement applied to the spec §8 example
labelling [1,1,1,1,0,1] followed by 14 non-wear windows. -/
theorem rescore_pass_matches_claim_witness :
    _rescore_wear_detection ([1, 1, 1, 1, 0, 1] ++ List.replicate 14 (0 : ℚ)) =
      rescoreClaim ([1, 1, 1, 1, 0, 1] ++ List.replicate 14 (0 : ℚ)) :=
  rescore_pass_matches_claim _ (by decide)

/-! ### get_major_wear_block: helper lemmas -/

theorem groupRuns_cons (r : WearRow) (rest : List WearRow) :
    groupRuns (r :: rest) =
      match groupRuns rest with
      | [] => [[r]]
      | g :: gs =>
        if (g.headD defaultRow).wear = r.wear then (r :: g) :: gs
        else [r] :: g :: gs := rfl

theorem groupRuns_flatten (l : List WearRow) : (groupRuns l).flatten = l := by
  induction l with
  | nil => rfl
  | cons r rest ih =>
    cases hg : groupRuns rest with
    | nil =>
      have hrest : rest = [] := by rw [← ih, hg]; rfl
      subst hrest
      rfl
    | cons g gs =>
      rw [hg] at ih
      rw [groupRuns_cons, hg]
      show (if (g.headD defaultRow).wear = r.wear then (r :: g) :: gs
        else [r] :: g :: gs).flatten = r :: rest
      by_cases hw : (g.headD defaultRow).wear = r.wear
      · rw [if_pos hw]
        simp only [List.flatten_cons] at ih ⊢
        rw [List.cons_append, ih]
      · rw [if_neg hw]
        simp only [List.flatten_cons] at ih ⊢
        rw [List.singleton_append, ih]

theorem groupRuns_ne_nil (l : List WearRow) : ∀ g ∈ groupRuns l, g ≠ [] := by
  induction l with
  | nil => intro g hg; simp [groupRuns] at hg
  | cons r rest ih =>
    intro g hgm
    cases hg : groupRuns rest with
    | nil =>
      rw [groupRuns_cons, hg] at hgm
      have hgm2 : g ∈ [[r]] := hgm
      simp at hgm2
      simp [hgm2]
    | cons g0 gs =>
      rw [groupRuns_cons, hg] at hgm
      have hgm2 : g ∈ (if (g0.headD defaultRow).wear = r.wear
          then (r :: g0) :: gs else [r] :: g0 :: gs) := hgm
      by_cases hw : (g0.headD defaultRow).wear = r.wear
      · rw [if_pos hw] at hgm2
        rcases List.mem_cons.mp hgm2 with rfl | hgm3
        · simp
        · exact ih g (by rw [hg]; exact List.mem_cons_of_mem _ hgm3)
      · rw [if_neg hw] at hgm2
        rcases List.mem_cons.mp hgm2 with rfl | hgm3
        · simp
        · exact ih g (by rw [hg]; exact hgm3)

theorem groupRuns_label_const (l : List WearRow) :
    ∀ g ∈ groupRuns l, ∀ a ∈ g, a.wear = (g.headD defaultRow).wear := by
  induction l with
  | nil => intro g hg; simp [groupRuns] at hg
  | cons r rest ih =>
    intro g hgm a ha
    cases hg : groupRuns rest with
    | nil =>
      rw [groupRuns_cons, hg] at hgm
      have hgm2 : g ∈ [[r]] := hgm
      simp at hgm2
      subst hgm2
      simp at ha
      subst ha
      rfl
    | cons g0 gs =>
      rw [groupRuns_cons, hg] at hgm
      have hgm2 : g ∈ (if (g0.headD defaultRow).wear = r.wear
          then (r :: g0) :: gs else [r] :: g0 :: gs) := hgm
      have hg0 : g0 ∈ groupRuns rest := by
        rw [hg]; exact List.mem_cons_self _ _
      by_cases hw : (g0.headD defaultRow).wear = r.wear
      · rw [if_pos hw] at hgm2
        rcases List.mem_cons.mp hgm2 with rfl | hgm3
        · rcases List.mem_cons.mp ha with rfl | ha0
          · rfl
          · have h1 := ih g0 hg0 a ha0
            rw [h1, hw]
            simp
        · exact ih g (by rw [hg]; exact List.mem_cons_of_mem _ hgm3) a ha
      · rw [if_neg hw] at hgm2
        rcases List.mem_cons.mp hgm2 with rfl | hgm3
        · simp at ha
          subst ha
          rfl
        · exact ih g (by rw [hg]; exact hgm3) a ha

theorem exists_group_of_mem (l : List WearRow) (r : WearRow) (hr : r ∈ l) :
    ∃ g ∈ groupRuns l, r ∈ g := by
  have h := groupRuns_flatten l
  rw [← h] at hr
  exact List.mem_flatten.mp hr

theorem getD_concat_length (l : List Nat) (a : Nat) :
    (l ++ [a]).getD l.length 0 = a := by
  rw [List.getD_append_right _ _ _ _ (le_refl _)]
  simp

theorem argmaxAux_spec (xs : List Nat) :
    ∀ (pre : List Nat) (bi : Nat), bi < pre.length →
      (∀ j, j < pre.length → pre.getD j 0 ≤ pre.getD bi 0) →
      (∀ j, j < bi → pre.getD j 0 < pre.getD bi 0) →
      argmaxAux xs pre.length bi (pre.getD bi 0) < (pre ++ xs).length ∧
      (∀ j, j < (pre ++ xs).length →
        (pre ++ xs).getD j 0 ≤
          (pre ++ xs).getD (argmaxAux xs pre.length bi (pre.getD bi 0)) 0) ∧
      (∀ j, j < argmaxAux xs pre.length bi (pre.getD bi 0) →
        (pre ++ xs).getD j 0 <
          (pre ++ xs).getD (argmaxAux xs pre.length bi (pre.getD bi 0)) 0) := by
  induction xs with
  | nil =>
    intro pre bi hbi hmax hstrict
    simp only [argmaxAux, List.append_nil]
    exact ⟨hbi, fun j hj => hmax j hj, hstrict⟩
  | cons x xs ih =>
    intro pre bi hbi hmax hstrict
    have hassoc : pre ++ x :: xs = (pre ++ [x]) ++ xs := by simp
    have hlen' : (pre ++ [x]).length = pre.length + 1 := by simp
    have hgetx : (pre ++ [x]).getD pre.length 0 = x := getD_concat_length pre x
    have hgetold : ∀ j, j < pre.length →
        (pre ++ [x]).getD j 0 = pre.getD j 0 :=
      fun j hj => List.getD_append _ _ _ _ hj
    simp only [argmaxAux]
    by_cases hlt : pre.getD bi 0 < x
    · rw [if_pos hlt]
      have h2 : ∀ j, j < (pre ++ [x]).length →
          (pre ++ [x]).getD j 0 ≤ (pre ++ [x]).getD pre.length 0 := by
        intro j hj
        rw [hgetx]
        rcases Nat.lt_or_ge j pre.length with hjp | hjp
        · rw [hgetold j hjp]
          exact le_of_lt (lt_of_le_of_lt (hmax j hjp) hlt)
        · have hj' : j = pre.length := by rw [hlen'] at hj; omega
          subst hj'
          rw [hgetx]
      have h3 : ∀ j, j < pre.length →
          (pre ++ [x]).getD j 0 < (pre ++ [x]).getD pre.length 0 := by
        intro j hj
        rw [hgetx, hgetold j hj]
        exact lt_of_le_of_lt (hmax j hj) hlt
      have hres := ih (pre ++ [x]) pre.length (by simp) h2 h3
      rw [hlen', hgetx, ← hassoc] at hres
      exact hres
    · rw [if_neg hlt]
      have hbix : (pre ++ [x]).getD bi 0 = pre.getD bi 0 := hgetold bi hbi
      have h2 : ∀ j, j < (pre ++ [x]).length →
          (pre ++ [x]).getD j 0 ≤ (pre ++ [x]).getD bi 0 := by
        intro j hj
        rw [hbix]
        rcases Nat.lt_or_ge j pre.length with hjp | hjp
        · rw [hgetold j hjp]
          exact hmax j hjp
        · have hj' : j = pre.length := by rw [hlen'] at hj; omega
          subst hj'
          rw [hgetx]
          exact le_of_not_lt hlt
      have h3 : ∀ j, j < bi →
          (pre ++ [x]).getD j 0 < (pre ++ [x]).getD bi 0 := by
        intro j hj
        rw [hbix, hgetold j (lt_trans hj hbi)]
        exact hstrict j hj
      have hres := ih (pre ++ [x]) bi (by rw [hlen']; omega) h2 h3
      rw [hlen', hbix, ← hassoc] at hres
      exact hres

theorem npArgmax_spec (x : Nat) (xs : List Nat) :
    ∃ i, npArgmax (x :: xs) = some i ∧ i < (x :: xs).length ∧
      (∀ j, j < (x :: xs).length → (x :: xs).getD j 0 ≤ (x :: xs).getD i 0) ∧
      (∀ j, j < i → (x :: xs).getD j 0 < (x :: xs).getD i 0) := by
  have h := argmaxAux_spec xs [x] 0 (by simp)
    (by
      intro j hj
      have hj0 : j = 0 := by simpa using hj
      subst hj0
      exact le_refl _)
    (by
      intro j hj
      exact absurd hj (Nat.not_lt_zero j))
  rw [List.singleton_append] at h
  exact ⟨argmaxAux xs [x].length 0 ([x].getD 0 0), rfl, h.1, h.2.1, h.2.2⟩

theorem map_length_getD (L : List (List WearRow)) (j : Nat) (hj : j < L.length) :
    (L.map List.length).getD j 0 = (L.getD j []).length := by
  rw [List.getD_eq_getElem _ _ (by simpa using hj), List.getD_eq_getElem _ _ hj,
    List.getElem_map]

/-! ### Claim theorems: get_major_wear_block -/

/-- C5 counterexample: on a wear table with no wear window at all,
`get_major_wear_block` fails with numpy's unhandled
`ValueError: attempt to get argmax of an empty sequence`, not with
`EmptyResultError` (no such class exists in the sources). -/
theorem get_major_wear_block_counterexample :
    get_major_wear_block [⟨0, 0, 1⟩, ⟨0, 1, 2⟩] =
      Except.error (PyError.valueError "attempt to get argmax of an empty sequence") ∧
    get_major_wear_block [⟨0, 0, 1⟩, ⟨0, 1, 2⟩] ≠
      Except.error PyError.emptyResultError := by
  have h1 : get_major_wear_block [⟨0, 0, 1⟩, ⟨0, 1, 2⟩] =
      Except.error (PyError.valueError "attempt to get argmax of an empty sequence") :=
    rfl
  refine ⟨h1, fun h => ?_⟩
  rw [h1] at h
  injection h with h2
  exact PyError.noConfusion h2

/-- C5 amended: for every wear table in which no window is labelled
wear, `get_major_wear_block` fails explicitly — it raises numpy's
`ValueError` from taking the argmax of the empty block list — rather
than returning a degenerate (start, end) range; it does not raise a
dedicated `EmptyResultError`. -/
theorem get_major_wear_block_no_wear (rows : List WearRow)
    (h : ∀ r ∈ rows, r.wear ≠ 1) :
    get_major_wear_block rows =
      Except.error (PyError.valueError "attempt to get argmax of an empty sequence") := by
  have hwb : wearBlocks rows = [] := by
    rw [wearBlocks, List.filter_eq_nil_iff]
    intro g hgm
    have hne := groupRuns_ne_nil rows g hgm
    obtain ⟨a, ha⟩ := List.exists_mem_of_ne_nil g hne
    have haw : a.wear ≠ 1 := by
      have hmem : a ∈ rows := by
        rw [← groupRuns_flatten rows]
        exact List.mem_flatten.mpr ⟨g, hgm, ha⟩
      exact h a hmem
    intro hall
    exact haw (of_decide_eq_true (List.all_eq_true.mp hall a ha))
  simp [get_major_wear_block, hwb, npArgmax]

/-- C5 witness: the amended failure theorem applied to a two-window
all-non-wear table. -/
theorem get_major_wear_block_no_wear_witness :
    get_major_wear_block [⟨0, 0, 1⟩, ⟨0, 10, 20⟩] =
      Except.error (PyError.valueError "attempt to get argmax of an empty sequence") :=
  get_major_wear_block_no_wear _ (by decide)

/-- C6: whenever at least one window is labelled wear,
`get_major_wear_block` returns the (start, end) timestamps of the first
and last window of the longest maximal contiguous all-wear block, where
length is window count and ties go to the first-occurring block
(`np.argmax` stability). -/
theorem get_major_wear_block_longest (rows : List WearRow)
    (h : ∃ r ∈ rows, r.wear = 1) :
    ∃ i, i < (wearBlocks rows).length ∧
      get_major_wear_block rows = Except.ok
        ((((wearBlocks rows).getD i []).headD defaultRow).startTs,
         (((wearBlocks rows).getD i []).getLastD defaultRow).endTs) ∧
      (∀ j, j < (wearBlocks rows).length →
        ((wearBlocks rows).getD j []).length ≤
          ((wearBlocks rows).getD i []).length) ∧
      (∀ j, j < i →
        ((wearBlocks rows).getD j []).length <
          ((wearBlocks rows).getD i []).length) := by
  obtain ⟨r, hr, hw⟩ := h
  obtain ⟨g, hgm, hrg⟩ := exists_group_of_mem rows r hr
  have hall : g.all (fun a => decide (a.wear = 1)) = true := by
    rw [List.all_eq_true]
    intro a ha
    have h1 := groupRuns_label_const rows g hgm a ha
    have h2 := groupRuns_label_const rows g hgm r hrg
    exact decide_eq_true (by rw [h1, ← h2, hw])
  have hgw : g ∈ wearBlocks rows := by
    rw [wearBlocks]
    exact List.mem_filter.mpr ⟨hgm, hall⟩
  cases hwbs : wearBlocks rows with
  | nil =>
    rw [hwbs] at hgw
    exact absurd hgw (List.not_mem_nil g)
  | cons w ws =>
    obtain ⟨i, hsome, hilt, hle, hstrict⟩ := npArgmax_spec w.length (ws.map List.length)
    have hmap : (w :: ws).map List.length = w.length :: ws.map List.length := rfl
    have hiltL : i < (w :: ws).length := by simpa using hilt
    refine ⟨i, ?_, ?_, ?_, ?_⟩
    · exact hiltL
    · simp only [get_major_wear_block, hwbs, hmap, hsome]
    · intro j hj
      have h1 := hle j (by simpa using hj)
      rw [← hmap] at h1
      rw [map_length_getD _ _ hj, map_length_getD _ _ hiltL] at h1
      exact h1
    · intro j hj
      have hjL : j < (w :: ws).length := lt_trans hj hiltL
      have h1 := hstrict j hj
      rw [← hmap] at h1
      rw [map_length_getD _ _ hjL, map_length_getD _ _ hiltL] at h1
      exact h1

/-- C6 witness: the longest-block theorem applied to the table
[wear, non-wear, wear, wear]: the chosen block is the length-2 block
with start 30 and end 50. -/
theorem get_major_wear_block_longest_witness :
    ∃ i, i < (wearBlocks [⟨1, 10, 20⟩, ⟨0, 20, 30⟩, ⟨1, 30, 40⟩, ⟨1, 40, 50⟩]).length ∧
      get_major_wear_block [⟨1, 10, 20⟩, ⟨0, 20, 30⟩, ⟨1, 30, 40⟩, ⟨1, 40, 50⟩] =
        Except.ok
        ((((wearBlocks [⟨1, 10, 20⟩, ⟨0, 20, 30⟩, ⟨1, 30, 40⟩, ⟨1, 40, 50⟩]).getD i
            []).headD defaultRow).startTs,
         (((wearBlocks [⟨1, 10, 20⟩, ⟨0, 20, 30⟩, ⟨1, 30, 40⟩, ⟨1, 40, 50⟩]).getD i
            []).getLastD defaultRow).endTs) ∧
      (∀ j, j < (wearBlocks [⟨1, 10, 20⟩, ⟨0, 20, 30⟩, ⟨1, 30, 40⟩, ⟨1, 40, 50⟩]).length →
        ((wearBlocks [⟨1, 10, 20⟩, ⟨0, 20, 30⟩, ⟨1, 30, 40⟩, ⟨1, 40, 50⟩]).getD j
            []).length ≤
          ((wearBlocks [⟨1, 10, 20⟩, ⟨0, 20, 30⟩, ⟨1, 30, 40⟩, ⟨1, 40, 50⟩]).getD i
            []).length) ∧
      (∀ j, j < i →
        ((wearBlocks [⟨1, 10, 20⟩, ⟨0, 20, 30⟩, ⟨1, 30, 40⟩, ⟨1, 40, 50⟩]).getD j
            []).length <
          ((wearBlocks [⟨1, 10, 20⟩, ⟨0, 20, 30⟩, ⟨1, 30, 40⟩, ⟨1, 40, 50⟩]).getD i
            []).length) :=
  get_major_wear_block_longest _ (by decide)

end WearDetection

end BioPsyKit
